import Mathlib

/-!
Shallow embedding of the `metrics` histogram engine (histograms file of the
rend repository) and proofs of the specification claims about it.

Machine integers (`uint64`, `uint32`) are modelled as `Nat` with explicit
reduction modulo `2 ^ 64` (resp. `2 ^ 32`) at every point where the Go code
can overflow.  Fixed-size Go slices are modelled as `List Nat` whose length
is maintained by the operations.  The concurrency primitives (the RW lock and
the atomic CAS loops) serialize every observation, so the sequential
semantics of one `ObserveHist` call is a pure state transformer; claims are
stated over sequential executions as the claims themselves require.
-/

namespace Metrics

/-- Size of the uint64 value domain. -/
def u64size : Nat := 2 ^ 64

/-- Size of the uint32 value domain. -/
def u32size : Nat := 2 ^ 32

/-- Go constant `math.MaxUint64`, the `min` sentinel. -/
def maxUint64 : Nat := u64size - 1

/-- Go constant `maxNumHists = 1024`. -/
def maxNumHists : Nat := 1024

/-- Go constant `buflen = 0x7FFF` (the index mask; the buffer has
`buflen + 1 = 32768` entries). -/
def buflen : Nat := 0x7FFF

/-- Go constant `bhistlen = 65`. -/
def bhistlen : Nat := 65

/-- The `hdat` struct: one aggregate buffer. -/
structure Hdat where
  count : Nat
  kept : Nat
  total : Nat
  min : Nat
  max : Nat
  buf : List Nat
  deriving Repr

/-- The `hist` struct: primary and secondary aggregate buffers. -/
structure Hist where
  prim : Hdat
  sec : Hdat
  deriving Repr

/-- `newHdat()`: zeroed buffer of `buflen + 1` slots, `min` at the
`math.MaxUint64` sentinel. -/
def newHdat : Hdat :=
  { count := 0
    kept := 0
    total := 0
    min := maxUint64
    max := 0
    buf := List.replicate (buflen + 1) 0 }

/-- `newHist()`: fresh primary and secondary buffers. -/
def newHist : Hist :=
  { prim := newHdat, sec := newHdat }

/-- Modelled from the spec: the `lzcnt` helper of the repository is not among the
provided source files (only its call site in `ObserveHist` is).  Per the spec,
the bucket index is the number of leading zero bits of the 64-bit value:
`lzcnt 0 = 64` and `lzcnt v = 63 - floor(log2 v)` for `0 < v < 2 ^ 64`. -/
def lzcnt (value : Nat) : Nat :=
  if value = 0 then 64 else 63 - Nat.log2 value

/-- Effect of one `ObserveHist` call on the bucket histogram slice
(`bhists[id].buckets`): line 128-129, `bucket := lzcnt(value)` then an atomic
increment of `buckets[bucket]` (a uint64, hence mod `2 ^ 64`). -/
def recordBucket (buckets : List Nat) (value : Nat) : List Nat :=
  let bucket := lzcnt value
  buckets.set bucket ((buckets.getD bucket 0 + 1) % u64size)

/-- Sequential effect of one `ObserveHist` call on the primary aggregate
buffer `h.prim` (lines 110-148).  The CAS retry loops for `max`/`min` reduce,
when the call runs alone, to taking the maximum/minimum with the observed
value; `total` and `count` are uint64 atomic adds (mod `2 ^ 64`); when the
histogram is sampled and the post-increment count has a nonzero low two bits
the call returns before touching `kept` and the sample buffer, otherwise
`kept` is post-incremented and the value stored at slot `kept &&& buflen`. -/
def observeHdat (sampled : Bool) (value : Nat) (d : Hdat) : Hdat :=
  let total := (d.total + value) % u64size
  let mx := Nat.max d.max value
  let mn := Nat.min d.min value
  let c := (d.count + 1) % u64size
  if sampled ∧ c &&& 0x3 > 0 then
    { d with total := total, max := mx, min := mn, count := c }
  else
    let k := (d.kept + 1) % u64size
    { d with total := total, max := mx, min := mn, count := c,
             kept := k, buf := d.buf.set (k &&& buflen) value }

/-- A sequence of sequential `ObserveHist` calls against the primary buffer
of one histogram. -/
def observeList (sampled : Bool) (d : Hdat) (vs : List Nat) : Hdat :=
  vs.foldl (fun d v => observeHdat sampled v d) d

/-- `extractAndReset(h)`: swap `prim` and `sec`, reset the scalar fields of
the new primary (its sample buffer is deliberately left as is), and return
the old primary as the snapshot.  The returned pair is
(snapshot, updated hist). -/
def extractAndReset (h : Hist) : Hdat × Hist :=
  let prim := h.sec
  let sec := h.prim
  let prim :=
    { prim with count := 0, kept := 0, total := 0, max := 0, min := maxUint64 }
  (sec, { prim := prim, sec := sec })

/-- `extractBHist(b)`: a fresh `bhistlen`-element copy of the bucket
counters, read without modification. -/
def extractBHist (buckets : List Nat) : List Nat :=
  (List.range bhistlen).map (fun i => buckets.getD i 0)

/-! ### Arithmetic facts about the masks and moduli -/

lemma dvd_u64size_32768 : (32768 : Nat) ∣ u64size := by
  refine ⟨2 ^ 49, by norm_num [u64size]⟩

lemma dvd_u64size_4 : (4 : Nat) ∣ u64size := by
  refine ⟨2 ^ 62, by norm_num [u64size]⟩

lemma and_buflen_eq_mod (x : Nat) : x &&& buflen = x % 32768 := by
  have h := Nat.and_pow_two_sub_one_eq_mod x 15
  norm_num at h
  simpa [buflen] using h

lemma and_three_eq_mod (x : Nat) : x &&& 0x3 = x % 4 := by
  have h := Nat.and_pow_two_sub_one_eq_mod x 2
  norm_num at h
  simpa using h

lemma mod_u64_mod_32768 (x : Nat) : x % u64size % 32768 = x % 32768 :=
  Nat.mod_mod_of_dvd x dvd_u64size_32768

lemma mod_u64_mod_4 (x : Nat) : x % u64size % 4 = x % 4 :=
  Nat.mod_mod_of_dvd x dvd_u64size_4

/-! ### Projection laws for a single observation -/

lemma observeHdat_count (s : Bool) (v : Nat) (d : Hdat) :
    (observeHdat s v d).count = (d.count + 1) % u64size := by
  unfold observeHdat
  dsimp only
  split <;> rfl

lemma observeHdat_total (s : Bool) (v : Nat) (d : Hdat) :
    (observeHdat s v d).total = (d.total + v) % u64size := by
  unfold observeHdat
  dsimp only
  split <;> rfl

lemma observeHdat_min (s : Bool) (v : Nat) (d : Hdat) :
    (observeHdat s v d).min = Nat.min d.min v := by
  unfold observeHdat
  dsimp only
  split <;> rfl

lemma observeHdat_max (s : Bool) (v : Nat) (d : Hdat) :
    (observeHdat s v d).max = Nat.max d.max v := by
  unfold observeHdat
  dsimp only
  split <;> rfl

lemma observeHdat_kept_skip (v : Nat) (d : Hdat)
    (h : ((d.count + 1) % u64size) &&& 0x3 > 0) :
    (observeHdat true v d).kept = d.kept := by
  unfold observeHdat
  rw [if_pos ⟨rfl, h⟩]

lemma observeHdat_kept_keep (v : Nat) (d : Hdat)
    (h : ¬ ((d.count + 1) % u64size) &&& 0x3 > 0) :
    (observeHdat true v d).kept = (d.kept + 1) % u64size := by
  unfold observeHdat
  rw [if_neg (fun hc => h hc.2)]

lemma observeHdat_unsampled_kept (v : Nat) (d : Hdat) :
    (observeHdat false v d).kept = (d.kept + 1) % u64size := by
  unfold observeHdat
  rw [if_neg (fun hc => by exact absurd hc.1 (by simp))]

lemma observeHdat_buf_skip (v : Nat) (d : Hdat)
    (h : ((d.count + 1) % u64size) &&& 0x3 > 0) :
    (observeHdat true v d).buf = d.buf := by
  unfold observeHdat
  rw [if_pos ⟨rfl, h⟩]

lemma observeHdat_unsampled_buf (v : Nat) (d : Hdat) :
    (observeHdat false v d).buf = d.buf.set ((d.kept + 1) % 32768) v := by
  unfold observeHdat
  rw [if_neg (fun hc => by exact absurd hc.1 (by simp))]
  simp only [and_buflen_eq_mod, mod_u64_mod_32768]

lemma observeHdat_buf_length (s : Bool) (v : Nat) (d : Hdat) :
    (observeHdat s v d).buf.length = d.buf.length := by
  unfold observeHdat
  dsimp only
  split <;> simp

/-! ### Fold laws for a sequence of observations -/

lemma observeList_nil (s : Bool) (d : Hdat) : observeList s d [] = d := rfl

lemma observeList_cons (s : Bool) (d : Hdat) (v : Nat) (vs : List Nat) :
    observeList s d (v :: vs) = observeList s (observeHdat s v d) vs := rfl

lemma observeList_append (s : Bool) (d : Hdat) (xs ys : List Nat) :
    observeList s d (xs ++ ys) = observeList s (observeList s d xs) ys := by
  simp [observeList, List.foldl_append]

lemma observeList_count (s : Bool) (vs : List Nat) (d : Hdat)
    (h : d.count + vs.length < u64size) :
    (observeList s d vs).count = d.count + vs.length := by
  induction vs generalizing d with
  | nil => simp [observeList_nil]
  | cons v t ih =>
      simp only [List.length_cons] at h
      have h1 : d.count + 1 < u64size := by omega
      have h2 : (observeHdat s v d).count + t.length < u64size := by
        rw [observeHdat_count, Nat.mod_eq_of_lt h1]; omega
      rw [observeList_cons, ih _ h2, observeHdat_count, Nat.mod_eq_of_lt h1]
      simp only [List.length_cons]
      omega

lemma observeList_total (s : Bool) (vs : List Nat) (d : Hdat)
    (h : d.total < u64size) :
    (observeList s d vs).total = (d.total + vs.sum) % u64size := by
  induction vs generalizing d with
  | nil => simp [observeList_nil, Nat.mod_eq_of_lt h]
  | cons v t ih =>
      have h2 : (observeHdat s v d).total < u64size := by
        rw [observeHdat_total]; exact Nat.mod_lt _ (by norm_num [u64size])
      rw [observeList_cons, ih _ h2, observeHdat_total, Nat.mod_add_mod]
      simp [Nat.add_assoc]

lemma observeList_min (s : Bool) (vs : List Nat) (d : Hdat) :
    (observeList s d vs).min = vs.foldl Nat.min d.min := by
  induction vs generalizing d with
  | nil => simp [observeList_nil]
  | cons v t ih => rw [observeList_cons, ih, observeHdat_min]; rfl

lemma observeList_max (s : Bool) (vs : List Nat) (d : Hdat) :
    (observeList s d vs).max = vs.foldl Nat.max d.max := by
  induction vs generalizing d with
  | nil => simp [observeList_nil]
  | cons v t ih => rw [observeList_cons, ih, observeHdat_max]; rfl

lemma observeList_unsampled_kept (vs : List Nat) (d : Hdat)
    (h : d.kept < u64size) :
    (observeList false d vs).kept = (d.kept + vs.length) % u64size := by
  induction vs generalizing d with
  | nil => simp [observeList_nil, Nat.mod_eq_of_lt h]
  | cons v t ih =>
      have h2 : (observeHdat false v d).kept < u64size := by
        rw [observeHdat_unsampled_kept]
        exact Nat.mod_lt _ (by norm_num [u64size])
      rw [observeList_cons, ih _ h2, observeHdat_unsampled_kept,
        Nat.mod_add_mod]
      simp only [List.length_cons]
      congr 1
      omega

lemma observeList_buf_length (s : Bool) (vs : List Nat) (d : Hdat) :
    (observeList s d vs).buf.length = d.buf.length := by
  induction vs generalizing d with
  | nil => rfl
  | cons v t ih => rw [observeList_cons, ih, observeHdat_buf_length]

lemma observeList_sampled_kept (vs : List Nat) (d : Hdat)
    (hc : d.count + vs.length < u64size) (hk : d.kept = d.count / 4) :
    (observeList true d vs).kept = (d.count + vs.length) / 4 := by
  induction vs generalizing d with
  | nil => simpa [observeList_nil] using hk
  | cons v t ih =>
      simp only [List.length_cons] at hc
      have h1 : d.count + 1 < u64size := by omega
      have hcnt : (observeHdat true v d).count = d.count + 1 := by
        rw [observeHdat_count, Nat.mod_eq_of_lt h1]
      have hcond : ((d.count + 1) % u64size) &&& 0x3 = (d.count + 1) % 4 := by
        rw [and_three_eq_mod, mod_u64_mod_4]
      rw [observeList_cons]
      by_cases h4 : (d.count + 1) % 4 = 0
      · have hkeep : (observeHdat true v d).kept = (d.kept + 1) % u64size :=
          observeHdat_kept_keep v d (by omega)
        have hklt : d.kept + 1 < u64size := by
          have : d.count / 4 ≤ d.count := Nat.div_le_self _ _
          omega
        have hk2 : (observeHdat true v d).kept = (d.count + 1) / 4 := by
          rw [hkeep, Nat.mod_eq_of_lt hklt, hk,
            Nat.succ_div_of_dvd (by omega)]
        rw [ih _ (by rw [hcnt]; omega) (by rw [hcnt, hk2])]
        rw [hcnt]
        simp only [List.length_cons]
        congr 1
        omega
      · have hskip : (observeHdat true v d).kept = d.kept :=
          observeHdat_kept_skip v d (by omega)
        have hk2 : (observeHdat true v d).kept = (d.count + 1) / 4 := by
          rw [hskip, hk, Nat.succ_div_of_not_dvd (by omega)]
        rw [ih _ (by rw [hcnt]; omega) (by rw [hcnt, hk2])]
        rw [hcnt]
        simp only [List.length_cons]
        congr 1
        omega

/-! ### Circular sample-buffer characterization (unsampled) -/

lemma mod_u64_add_mod_32768 (x y : Nat) :
    (x % u64size + y) % 32768 = (x + y) % 32768 := by
  conv_lhs => rw [Nat.add_mod]
  rw [mod_u64_mod_32768, ← Nat.add_mod]

lemma observeList_buf_untouched (vs : List Nat) (d : Hdat) (j : Nat)
    (h : ∀ i, i < vs.length → (d.kept + 1 + i) % 32768 ≠ j) :
    (observeList false d vs).buf.getD j 0 = d.buf.getD j 0 := by
  induction vs generalizing d with
  | nil => rfl
  | cons v t ih =>
      rw [observeList_cons, ih]
      · rw [observeHdat_unsampled_buf]
        have hne : (d.kept + 1) % 32768 ≠ j := by
          simpa using h 0 (by simp)
        simp [List.getElem?_set_ne hne]
      · intro i hi
        rw [observeHdat_unsampled_kept]
        have hK := mod_u64_mod_32768 (d.kept + 1)
        have := h (i + 1) (by simpa using Nat.succ_lt_succ hi)
        omega

lemma observeList_unsampled_kept_mod (vs : List Nat) (d : Hdat) :
    (observeList false d vs).kept % 32768 = (d.kept + vs.length) % 32768 := by
  induction vs generalizing d with
  | nil => simp [observeList_nil]
  | cons v t ih =>
      rw [observeList_cons, ih, observeHdat_unsampled_kept,
        mod_u64_add_mod_32768]
      simp only [List.length_cons]
      omega

lemma observeList_buf_written (vs : List Nat) (d : Hdat) (j : Nat)
    (hlen : d.buf.length = 32768)
    (hcov : ∃ i, i < vs.length ∧ (d.kept + 1 + i) % 32768 = j) :
    ∃ i, i < vs.length ∧ (d.kept + 1 + i) % 32768 = j ∧
      (observeList false d vs).buf.getD j 0 = vs.getD i 0 ∧
      ∀ i2, i2 < vs.length → i < i2 → (d.kept + 1 + i2) % 32768 ≠ j := by
  induction vs using List.reverseRecOn generalizing j with
  | nil => obtain ⟨i, hi, _⟩ := hcov; simp at hi
  | append_singleton ys v ih =>
      have heq : observeList false d (ys ++ [v]) =
          observeHdat false v (observeList false d ys) := by
        rw [observeList_append]; rfl
      have hmod : (observeList false d ys).kept % 32768 =
          (d.kept + ys.length) % 32768 :=
        observeList_unsampled_kept_mod ys d
      have hslot : ((observeList false d ys).kept + 1) % 32768 =
          (d.kept + 1 + ys.length) % 32768 := by omega
      have hlen2 : (observeList false d ys).buf.length = 32768 := by
        rw [observeList_buf_length]; exact hlen
      have hbuf : (observeHdat false v (observeList false d ys)).buf =
          (observeList false d ys).buf.set ((d.kept + 1 + ys.length) % 32768)
            v := by
        rw [observeHdat_unsampled_buf, hslot]
      by_cases hj : (d.kept + 1 + ys.length) % 32768 = j
      · refine ⟨ys.length, by simp, hj, ?_, ?_⟩
        · rw [heq, hbuf, hj]
          have hjlt : j < ((observeList false d ys).buf).length := by
            rw [hlen2]; omega
          simp only [List.getD_eq_getElem?_getD, List.getElem?_set_self hjlt,
            Option.getD_some]
          have : (ys ++ [v])[ys.length]? = some v := by
            rw [List.getElem?_append_right (Nat.le_refl _)]
            simp
          rw [this, Option.getD_some]
        · intro i2 hi2 hgt
          simp only [List.length_append, List.length_singleton] at hi2
          omega
      · obtain ⟨i, hi, hieq⟩ := hcov
        have hine : i ≠ ys.length := fun hie => hj (hie ▸ hieq)
        have hilt : i < ys.length := by
          simp only [List.length_append, List.length_singleton] at hi
          omega
        obtain ⟨i0, hi0, hi0eq, hi0buf, hi0last⟩ :=
          ih j ⟨i, hilt, hieq⟩
        refine ⟨i0, by simp; omega, hi0eq, ?_, ?_⟩
        · rw [heq, hbuf]
          simp only [List.getD_eq_getElem?_getD, List.getElem?_set_ne hj]
          have : (ys ++ [v])[i0]? = ys[i0]? := List.getElem?_append_left hi0
          rw [this]
          simpa only [List.getD_eq_getElem?_getD] using hi0buf
        · intro i2 hi2 hgt
          simp only [List.length_append, List.length_singleton] at hi2
          rcases Nat.lt_or_ge i2 ys.length with hlt | hge
          · exact hi0last i2 hlt hgt
          · have : i2 = ys.length := by omega
            rw [this]
            exact hj

/-! ### Extremum folds -/

lemma foldl_min_le_init (vs : List Nat) (a : Nat) : vs.foldl Nat.min a ≤ a := by
  induction vs generalizing a with
  | nil => exact Nat.le_refl a
  | cons v t ih => exact Nat.le_trans (ih (Nat.min a v)) (Nat.min_le_left a v)

lemma foldl_min_le_mem (vs : List Nat) (a v : Nat) (hv : v ∈ vs) :
    vs.foldl Nat.min a ≤ v := by
  induction vs generalizing a with
  | nil => cases hv
  | cons x t ih =>
      rcases List.mem_cons.mp hv with hx | ht
      · subst hx
        exact Nat.le_trans (foldl_min_le_init t _) (Nat.min_le_right a v)
      · exact ih _ ht

lemma foldl_min_mem (vs : List Nat) (a : Nat) :
    vs.foldl Nat.min a = a ∨ vs.foldl Nat.min a ∈ vs := by
  induction vs generalizing a with
  | nil => exact Or.inl rfl
  | cons x t ih =>
      rcases ih (Nat.min a x) with h | h
      · rcases Nat.le_total a x with hax | hxa
        · refine Or.inl ?_
          rw [List.foldl_cons, h]
          exact Nat.min_eq_left hax
        · refine Or.inr ?_
          rw [List.foldl_cons, h]
          have hx : Nat.min a x = x := Nat.min_eq_right hxa
          rw [hx]
          exact List.mem_cons_self x t
      · exact Or.inr (List.mem_cons_of_mem x h)

lemma foldl_max_ge_init (vs : List Nat) (a : Nat) : a ≤ vs.foldl Nat.max a := by
  induction vs generalizing a with
  | nil => exact Nat.le_refl a
  | cons v t ih => exact Nat.le_trans (Nat.le_max_left a v) (ih (Nat.max a v))

lemma foldl_max_ge_mem (vs : List Nat) (a v : Nat) (hv : v ∈ vs) :
    v ≤ vs.foldl Nat.max a := by
  induction vs generalizing a with
  | nil => cases hv
  | cons x t ih =>
      rcases List.mem_cons.mp hv with hx | ht
      · subst hx
        exact Nat.le_trans (Nat.le_max_right a v) (foldl_max_ge_init t _)
      · exact ih _ ht

lemma foldl_max_mem (vs : List Nat) (a : Nat) :
    vs.foldl Nat.max a = a ∨ vs.foldl Nat.max a ∈ vs := by
  induction vs generalizing a with
  | nil => exact Or.inl rfl
  | cons x t ih =>
      rcases ih (Nat.max a x) with h | h
      · rcases Nat.le_total a x with hax | hxa
        · refine Or.inr ?_
          rw [List.foldl_cons, h]
          have hx : Nat.max a x = x := Nat.max_eq_right hax
          rw [hx]
          exact List.mem_cons_self x t
        · refine Or.inl ?_
          rw [List.foldl_cons, h]
          exact Nat.max_eq_left hxa
      · exact Or.inr (List.mem_cons_of_mem x h)

/-! ### The aggregate-buffer invariant and interleaved operation sequences -/

/-- One sequential operation against a single histogram: an `ObserveHist`
call or an `extractAndReset` call. -/
inductive HistOp where
  | observe (value : Nat)
  | extract
  deriving Repr

/-- Apply one operation to the `hist` (the snapshot an extraction returns is
dropped; only the retained state matters here). -/
def applyOp (sampled : Bool) (h : Hist) : HistOp → Hist
  | HistOp.observe v => { h with prim := observeHdat sampled v h.prim }
  | HistOp.extract => (extractAndReset h).2

/-- Run a sequence of operations left to right. -/
def runOps (sampled : Bool) (h : Hist) (ops : List HistOp) : Hist :=
  ops.foldl (applyOp sampled) h

/-- The aggregate-buffer invariant of the spec: `kept ≤ count` always,
`min ≤ max` when the buffer holds at least one observation, and the
sentinels when it holds none. -/
def Inv (d : Hdat) : Prop :=
  d.kept ≤ d.count ∧ (0 < d.count → d.min ≤ d.max) ∧
    (d.count = 0 → d.min = maxUint64 ∧ d.max = 0)

lemma observeHdat_inv (s : Bool) (v : Nat) (d : Hdat)
    (hc : d.count + 1 < u64size) (hinv : Inv d) : Inv (observeHdat s v d) := by
  obtain ⟨h1, h2, h3⟩ := hinv
  have hmc : (d.count + 1) % u64size = d.count + 1 := Nat.mod_eq_of_lt hc
  have hmk : (d.kept + 1) % u64size = d.kept + 1 :=
    Nat.mod_eq_of_lt (by omega)
  unfold observeHdat
  dsimp only
  split
  · refine ⟨?_, ?_, ?_⟩
    · dsimp only
      rw [hmc]
      omega
    · intro _
      exact Nat.le_trans (Nat.min_le_right _ _) (Nat.le_max_right _ _)
    · intro h0
      dsimp only at h0
      rw [hmc] at h0
      omega
  · refine ⟨?_, ?_, ?_⟩
    · dsimp only
      rw [hmc, hmk]
      omega
    · intro _
      exact Nat.le_trans (Nat.min_le_right _ _) (Nat.le_max_right _ _)
    · intro h0
      dsimp only at h0
      rw [hmc] at h0
      omega

lemma inv_reset (d : Hdat) :
    Inv { d with count := 0, kept := 0, total := 0, max := 0,
                 min := maxUint64 } := by
  refine ⟨Nat.le_refl 0, ?_, fun _ => ⟨rfl, rfl⟩⟩
  intro h0
  simp at h0

lemma runOps_cons (s : Bool) (h : Hist) (op : HistOp) (t : List HistOp) :
    runOps s h (op :: t) = runOps s (applyOp s h op) t := rfl

lemma runOps_inv (s : Bool) (ops : List HistOp) (h : Hist)
    (hn : h.prim.count + ops.length < u64size)
    (hp : Inv h.prim) (hs : Inv h.sec) :
    Inv (runOps s h ops).prim ∧ Inv (runOps s h ops).sec := by
  induction ops generalizing h with
  | nil => exact ⟨hp, hs⟩
  | cons op t ih =>
      simp only [List.length_cons] at hn
      rw [runOps_cons]
      cases op with
      | observe v =>
          have h1 : h.prim.count + 1 < u64size := by omega
          refine ih _ ?_ (observeHdat_inv s v h.prim h1 hp) hs
          show (observeHdat s v h.prim).count + t.length < u64size
          rw [observeHdat_count, Nat.mod_eq_of_lt h1]
          omega
      | extract =>
          refine ih _ ?_ (inv_reset h.sec) hp
          have h0 : (applyOp s h HistOp.extract).prim.count = 0 := rfl
          rw [h0]
          omega

/-! ### The process-wide registry -/

/-- The package-level mutable state: the registration counter `curHistID`
(a uint32) and the four fixed `maxNumHists`-sized tables.  The Go tables
start as zero values / nil pointers; entries are written exactly once at
registration and never read before, so the tables are modelled as total
functions whose value at unregistered indices is the Go zero value (empty
name, `false`, and fresh structures in place of nil pointers). -/
structure RegState where
  curHistID : Nat
  hnames : Nat → String
  hsampled : Nat → Bool
  hists : Nat → Hist
  bhists : Nat → List Nat

/-- The state right after the package `init`: no histogram registered. -/
def initRegState : RegState :=
  { curHistID := 0
    hnames := fun _ => ""
    hsampled := fun _ => false
    hists := fun _ => newHist
    bhists := fun _ => List.replicate bhistlen 0 }

/-- `AddHistogram(name, sampled)`: post-increment the uint32 registration
counter, panic (modelled as `Except.error`) when the resulting index reaches
`maxNumHists`, otherwise fill the tables at the new index and return it. -/
def AddHistogram (st : RegState) (name : String) (sampled : Bool) :
    Except String (Nat × RegState) :=
  let newID := (st.curHistID + 1) % u32size
  let idx := (newID + (u32size - 1)) % u32size
  if idx ≥ maxNumHists then
    Except.error "Too many histograms"
  else
    Except.ok (idx,
      { curHistID := newID
        hnames := fun j => if j = idx then name else st.hnames j
        hsampled := fun j => if j = idx then sampled else st.hsampled j
        hists := fun j => if j = idx then newHist else st.hists j
        bhists := fun j => if j = idx then List.replicate bhistlen 0
                           else st.bhists j })

/-- `ObserveHist(id, value)` at the registry level: update the primary
aggregate buffer of `hists[id]` and the bucket counters of `bhists[id]`. -/
def ObserveHist (st : RegState) (id : Nat) (value : Nat) : RegState :=
  { st with
    hists := fun j =>
      if j = id then
        { st.hists id with
          prim := observeHdat (st.hsampled id) value (st.hists id).prim }
      else st.hists j
    bhists := fun j =>
      if j = id then recordBucket (st.bhists id) value else st.bhists j }

/-- Loop body of `getAllHistograms` for index `i`: extract-and-reset
`hists[i]` and write the snapshot into the result map under `hnames[i]`
(a later write to the same name overwrites an earlier one, as Go map
assignment does). -/
def gahStep (acc : (String → Option Hdat) × RegState) (i : Nat) :
    (String → Option Hdat) × RegState :=
  let ex := extractAndReset (acc.2.hists i)
  (fun nm => if nm = acc.2.hnames i then some ex.1 else acc.1 nm,
   { acc.2 with hists := fun j => if j = i then ex.2 else acc.2.hists j })

/-- `getAllHistograms()`: load `curHistID`, then run the loop body over every
registered index in order.  Returns the map and the mutated state. -/
def getAllHistograms (st : RegState) : (String → Option Hdat) × RegState :=
  (List.range (st.curHistID % u32size)).foldl gahStep (fun _ => none, st)

/-- Loop body of `getAllBucketHistograms` for index `i`: copy the bucket
counters of `bhists[i]` into the result map under `hnames[i]`. -/
def gabhStep (st : RegState) (ret : String → Option (List Nat)) (i : Nat) :
    String → Option (List Nat) :=
  fun nm =>
    if nm = st.hnames i then some (extractBHist (st.bhists i)) else ret nm

/-- `getAllBucketHistograms()`: run the loop body over every registered
index in order.  No state is modified. -/
def getAllBucketHistograms (st : RegState) : String → Option (List Nat) :=
  (List.range (st.curHistID % u32size)).foldl (gabhStep st) (fun _ => none)

/-! ### Export-loop fold laws -/

lemma getD_append_left_nat (ys zs : List Nat) (p : Nat) (hp : p < ys.length) :
    (ys ++ zs).getD p 0 = ys.getD p 0 := by
  simp only [List.getD_eq_getElem?_getD, List.getElem?_append_left hp]

lemma getD_append_last_nat (ys : List Nat) (i : Nat) :
    (ys ++ [i]).getD ys.length 0 = i := by
  simp only [List.getD_eq_getElem?_getD,
    List.getElem?_append_right (Nat.le_refl ys.length)]
  simp

lemma getD_range (n p : Nat) (hp : p < n) : (List.range n).getD p 0 = p := by
  rw [List.getD_eq_getElem?_getD,
    List.getElem?_eq_getElem (by simpa using hp)]
  simp

lemma gahFold_fields (l : List Nat) (acc : (String → Option Hdat) × RegState) :
    (l.foldl gahStep acc).2.curHistID = acc.2.curHistID ∧
    (l.foldl gahStep acc).2.hnames = acc.2.hnames ∧
    (l.foldl gahStep acc).2.hsampled = acc.2.hsampled ∧
    (l.foldl gahStep acc).2.bhists = acc.2.bhists := by
  induction l generalizing acc with
  | nil => exact ⟨rfl, rfl, rfl, rfl⟩
  | cons i t ih =>
      rw [List.foldl_cons]
      obtain ⟨a, b, c, e⟩ := ih (gahStep acc i)
      exact ⟨a.trans rfl, b.trans rfl, c.trans rfl, e.trans rfl⟩

lemma gahFold_hists_not_mem (l : List Nat)
    (acc : (String → Option Hdat) × RegState) (j : Nat) (hj : j ∉ l) :
    (l.foldl gahStep acc).2.hists j = acc.2.hists j := by
  induction l generalizing acc with
  | nil => rfl
  | cons i t ih =>
      rw [List.foldl_cons,
        ih (gahStep acc i) (fun hm => hj (List.mem_cons_of_mem i hm))]
      have hji : j ≠ i := fun he => hj (he ▸ List.mem_cons_self i t)
      show (if j = i then _ else acc.2.hists j) = acc.2.hists j
      rw [if_neg hji]

lemma gahFold_hists_mem (l : List Nat) (hnd : l.Nodup)
    (acc : (String → Option Hdat) × RegState) (j : Nat) (hj : j ∈ l) :
    (l.foldl gahStep acc).2.hists j = (extractAndReset (acc.2.hists j)).2 := by
  induction l generalizing acc with
  | nil => cases hj
  | cons i t ih =>
      rw [List.foldl_cons]
      rcases List.mem_cons.mp hj with he | hm
      · subst he
        have hit : j ∉ t := (List.nodup_cons.mp hnd).1
        rw [gahFold_hists_not_mem t (gahStep acc j) j hit]
        show (if j = j then _ else _) = _
        rw [if_pos rfl]
      · have hji : j ≠ i := fun he2 =>
          (List.nodup_cons.mp hnd).1 (he2 ▸ hm)
        rw [ih (List.nodup_cons.mp hnd).2 (gahStep acc i) hm]
        have hstep : (gahStep acc i).2.hists j = acc.2.hists j := by
          show (if j = i then _ else acc.2.hists j) = acc.2.hists j
          rw [if_neg hji]
        rw [hstep]

lemma gahFold_map_last (l : List Nat) (hnd : l.Nodup)
    (acc : (String → Option Hdat) × RegState) (nm : String) (p : Nat)
    (hp : p < l.length) (hname : acc.2.hnames (l.getD p 0) = nm)
    (hlast : ∀ q, p < q → q < l.length → acc.2.hnames (l.getD q 0) ≠ nm) :
    (l.foldl gahStep acc).1 nm = some ((acc.2.hists (l.getD p 0)).prim) := by
  induction l using List.reverseRecOn generalizing p with
  | nil => simp at hp
  | append_singleton ys i ih =>
      have hfold : ((ys ++ [i]).foldl gahStep acc).1
          = (gahStep (ys.foldl gahStep acc) i).1 := by
        rw [List.foldl_append]
        rfl
      have hinotys : i ∉ ys := by
        intro hmem
        exact (List.nodup_append.mp hnd).2.2 hmem (by simp)
      have hynames : (ys.foldl gahStep acc).2.hnames = acc.2.hnames :=
        (gahFold_fields ys acc).2.1
      have hyhist : (ys.foldl gahStep acc).2.hists i = acc.2.hists i :=
        gahFold_hists_not_mem ys acc i hinotys
      rw [hfold]
      by_cases hpi : p = ys.length
      · have hgd : (ys ++ [i]).getD p 0 = i := by
          rw [hpi]
          exact getD_append_last_nat ys i
        rw [hgd] at hname
        show (if nm = (ys.foldl gahStep acc).2.hnames i then
            some ((ys.foldl gahStep acc).2.hists i).prim else _) = _
        rw [hynames, if_pos hname.symm, hyhist, hgd]
      · have hplt : p < ys.length := by
          simp only [List.length_append, List.length_singleton] at hp
          omega
        have hgd : (ys ++ [i]).getD p 0 = ys.getD p 0 :=
          getD_append_left_nat ys [i] p hplt
        have hlastname : acc.2.hnames i ≠ nm := by
          have h := hlast ys.length (by omega) (by simp)
          rwa [getD_append_last_nat ys i] at h
        show (if nm = (ys.foldl gahStep acc).2.hnames i then _
            else (ys.foldl gahStep acc).1 nm) = _
        rw [hynames, if_neg (fun he => hlastname he.symm)]
        rw [ih (List.nodup_append.mp hnd).1 p hplt
          (by rwa [hgd] at hname)
          (fun q hq hql => by
            have h := hlast q hq (by simp; omega)
            rwa [getD_append_left_nat ys [i] q hql] at h)]
        rw [hgd]

lemma gabhFold_map_last (st : RegState) (l : List Nat)
    (ret0 : String → Option (List Nat)) (nm : String) (p : Nat)
    (hp : p < l.length) (hname : st.hnames (l.getD p 0) = nm)
    (hlast : ∀ q, p < q → q < l.length → st.hnames (l.getD q 0) ≠ nm) :
    (l.foldl (gabhStep st) ret0) nm
      = some (extractBHist (st.bhists (l.getD p 0))) := by
  induction l using List.reverseRecOn generalizing p with
  | nil => simp at hp
  | append_singleton ys i ih =>
      have hfold : ((ys ++ [i]).foldl (gabhStep st) ret0)
          = gabhStep st (ys.foldl (gabhStep st) ret0) i := by
        rw [List.foldl_append]
        rfl
      rw [hfold]
      show (if nm = st.hnames i then some (extractBHist (st.bhists i))
          else (ys.foldl (gabhStep st) ret0) nm) = _
      by_cases hpi : p = ys.length
      · have hgd : (ys ++ [i]).getD p 0 = i := by
          rw [hpi]
          exact getD_append_last_nat ys i
        rw [hgd] at hname
        rw [if_pos hname.symm, hgd]
      · have hplt : p < ys.length := by
          simp only [List.length_append, List.length_singleton] at hp
          omega
        have hgd : (ys ++ [i]).getD p 0 = ys.getD p 0 :=
          getD_append_left_nat ys [i] p hplt
        have hlastname : st.hnames i ≠ nm := by
          have h := hlast ys.length (by omega) (by simp)
          rwa [getD_append_last_nat ys i] at h
        rw [if_neg (fun he => hlastname he.symm)]
        rw [ih p hplt (by rwa [hgd] at hname)
          (fun q hq hql => by
            have h := hlast q hq (by simp; omega)
            rwa [getD_append_left_nat ys [i] q hql] at h)]
        rw [hgd]

lemma gabhFold_lookup (st : RegState) (l : List Nat)
    (ret0 : String → Option (List Nat)) (nm : String) (dat : List Nat)
    (hr : (l.foldl (gabhStep st) ret0) nm = some dat) :
    (∃ i, i ∈ l ∧ st.hnames i = nm ∧ dat = extractBHist (st.bhists i)) ∨
      ret0 nm = some dat := by
  induction l generalizing ret0 with
  | nil => exact Or.inr hr
  | cons i t ih =>
      rw [List.foldl_cons] at hr
      rcases ih (gabhStep st ret0 i) hr with ⟨i2, hi2, hnm, hdat⟩ | hbase
      · exact Or.inl ⟨i2, List.mem_cons_of_mem i hi2, hnm, hdat⟩
      · by_cases hni : nm = st.hnames i
        · refine Or.inl ⟨i, List.mem_cons_self i t, hni.symm, ?_⟩
          unfold gabhStep at hbase
          rw [if_pos hni] at hbase
          exact (Option.some.inj hbase).symm
        · refine Or.inr ?_
          unfold gabhStep at hbase
          rwa [if_neg hni] at hbase

lemma extractBHist_length (b : List Nat) :
    (extractBHist b).length = bhistlen := by
  simp [extractBHist]

/-! ### Remaining small helpers -/

lemma inv_newHdat : Inv newHdat := by
  refine ⟨Nat.le_refl 0, ?_, fun _ => ⟨rfl, rfl⟩⟩
  intro h0
  simp [newHdat] at h0

lemma lzcnt_lt_bhistlen (v : Nat) : lzcnt v < bhistlen := by
  unfold lzcnt bhistlen
  split
  · omega
  · have := Nat.sub_le 63 (Nat.log2 v)
    omega

lemma lzcnt_two_pow_63 : lzcnt (2 ^ 63) = 0 := by
  unfold lzcnt
  rw [if_neg (show (2 : Nat) ^ 63 ≠ 0 from
        Nat.pos_iff_ne_zero.mp (Nat.pos_pow_of_pos 63 (by norm_num)))]
  rw [Nat.log2_eq_log_two, Nat.log_pow (by norm_num)]

lemma extractBHist_eq_self (b : List Nat) (hb : b.length = bhistlen) :
    extractBHist b = b := by
  apply List.ext_getElem
  · simp [extractBHist, hb]
  · intro i h1 h2
    simp only [extractBHist, List.getElem_map, List.getElem_range,
      List.getD_eq_getElem?_getD, List.getElem?_eq_getElem h2,
      Option.getD_some]

/-! ### Claim theorems -/

/-- C1: for every nonempty sequence of values recorded via `ObserveHist`
against a freshly reset histogram, a single `extractAndReset` returns a
snapshot whose `count` is the number of observations, `total` their sum, and
`min`/`max` the least/greatest observed value (stated as: a member of the
sequence bounding it from below/above). -/
theorem C1_fresh_interval_stats (s : Bool) (h0 : Hist) (vs : List Nat)
    (hne : vs ≠ [])
    (hlen : vs.length < u64size)
    (hsum : vs.sum < u64size)
    (hvals : ∀ v, v ∈ vs → v < u64size) :
    (extractAndReset
        { (extractAndReset h0).2 with
          prim := observeList s (extractAndReset h0).2.prim vs }).1.count
        = vs.length ∧
    (extractAndReset
        { (extractAndReset h0).2 with
          prim := observeList s (extractAndReset h0).2.prim vs }).1.total
        = vs.sum ∧
    (extractAndReset
        { (extractAndReset h0).2 with
          prim := observeList s (extractAndReset h0).2.prim vs }).1.min ∈ vs ∧
    (∀ v, v ∈ vs →
      (extractAndReset
          { (extractAndReset h0).2 with
            prim := observeList s (extractAndReset h0).2.prim vs }).1.min ≤ v) ∧
    (extractAndReset
        { (extractAndReset h0).2 with
          prim := observeList s (extractAndReset h0).2.prim vs }).1.max ∈ vs ∧
    (∀ v, v ∈ vs →
      v ≤ (extractAndReset
          { (extractAndReset h0).2 with
            prim := observeList s (extractAndReset h0).2.prim vs }).1.max) := by
  set d : Hdat := (extractAndReset h0).2.prim with hd
  have hc0 : d.count = 0 := rfl
  have ht0 : d.total = 0 := rfl
  have hmin0 : d.min = maxUint64 := rfl
  have hmax0 : d.max = 0 := rfl
  have hmax64 : maxUint64 = u64size - 1 := rfl
  obtain ⟨v0, hv0⟩ := List.exists_mem_of_ne_nil vs hne
  refine ⟨?_, ?_, ?_, ?_, ?_, ?_⟩
  · show (observeList s d vs).count = vs.length
    rw [observeList_count s vs d (by omega)]
    omega
  · show (observeList s d vs).total = vs.sum
    rw [observeList_total s vs d (by rw [ht0]; norm_num [u64size]), ht0,
      Nat.zero_add, Nat.mod_eq_of_lt hsum]
  · show (observeList s d vs).min ∈ vs
    rw [observeList_min]
    rcases foldl_min_mem vs d.min with he | hm
    · have hle : vs.foldl Nat.min d.min ≤ v0 := foldl_min_le_mem vs d.min v0 hv0
      have hv0lt : v0 < u64size := hvals v0 hv0
      have : vs.foldl Nat.min d.min = v0 := by
        rw [he, hmin0] at hle ⊢
        omega
      rw [this]
      exact hv0
    · exact hm
  · intro v hv
    show (observeList s d vs).min ≤ v
    rw [observeList_min]
    exact foldl_min_le_mem vs d.min v hv
  · show (observeList s d vs).max ∈ vs
    rw [observeList_max]
    rcases foldl_max_mem vs d.max with he | hm
    · have hge : v0 ≤ vs.foldl Nat.max d.max := foldl_max_ge_mem vs d.max v0 hv0
      have : vs.foldl Nat.max d.max = v0 := by
        rw [he, hmax0] at hge ⊢
        omega
      rw [this]
      exact hv0
    · exact hm
  · intro v hv
    show v ≤ (observeList s d vs).max
    rw [observeList_max]
    exact foldl_max_ge_mem vs d.max v hv

/-- C1 witness: the sequence `[3, 1, 2]` against a freshly reset histogram
yields `count = 3`, `total = 6`, `min = 1`, `max = 3`. -/
theorem C1_fresh_interval_stats_witness :
    (([3, 1, 2] : List Nat) ≠ [] ∧ ([3, 1, 2] : List Nat).length < u64size ∧
      ([3, 1, 2] : List Nat).sum < u64size ∧
      (∀ v, v ∈ ([3, 1, 2] : List Nat) → v < u64size)) ∧
    ((extractAndReset
        { (extractAndReset newHist).2 with
          prim := observeList false (extractAndReset newHist).2.prim
              [3, 1, 2] }).1.count = ([3, 1, 2] : List Nat).length ∧
     (extractAndReset
        { (extractAndReset newHist).2 with
          prim := observeList false (extractAndReset newHist).2.prim
              [3, 1, 2] }).1.total = ([3, 1, 2] : List Nat).sum ∧
     (extractAndReset
        { (extractAndReset newHist).2 with
          prim := observeList false (extractAndReset newHist).2.prim
              [3, 1, 2] }).1.min ∈ ([3, 1, 2] : List Nat) ∧
     (∀ v, v ∈ ([3, 1, 2] : List Nat) →
       (extractAndReset
          { (extractAndReset newHist).2 with
            prim := observeList false (extractAndReset newHist).2.prim
                [3, 1, 2] }).1.min ≤ v) ∧
     (extractAndReset
        { (extractAndReset newHist).2 with
          prim := observeList false (extractAndReset newHist).2.prim
              [3, 1, 2] }).1.max ∈ ([3, 1, 2] : List Nat) ∧
     (∀ v, v ∈ ([3, 1, 2] : List Nat) →
       v ≤ (extractAndReset
          { (extractAndReset newHist).2 with
            prim := observeList false (extractAndReset newHist).2.prim
                [3, 1, 2] }).1.max)) :=
  ⟨⟨by decide, by decide, by decide, by decide⟩,
   C1_fresh_interval_stats false newHist [3, 1, 2]
     (by decide) (by decide) (by decide) (by decide)⟩

/-- C6: extracting twice in a row with no observations in between yields a
second snapshot with `count = 0`, `min` at the `math.MaxUint64` sentinel,
`max = 0` and `total = 0`. -/
theorem C6_double_extract_empty (h : Hist) :
    (extractAndReset (extractAndReset h).2).1.count = 0 ∧
    (extractAndReset (extractAndReset h).2).1.min = maxUint64 ∧
    (extractAndReset (extractAndReset h).2).1.max = 0 ∧
    (extractAndReset (extractAndReset h).2).1.total = 0 ∧
    maxUint64 = u64size - 1 :=
  ⟨rfl, rfl, rfl, rfl, rfl⟩

/-- C2 counterexample: ten observations against a freshly reset sampled
histogram leave `kept = 2`, not `ceil(10 / 4) = 3` as the claim states: the
code retains exactly the observations whose running count is divisible by 4
(here the 4th and the 8th), i.e. `floor(n / 4)` of `n` observations. -/
theorem C2_sampling_counterexample :
    (extractAndReset
        { (extractAndReset newHist).2 with
          prim := observeList true (extractAndReset newHist).2.prim
              (List.replicate 10 10) }).1.kept = 2 ∧
    ¬ (extractAndReset
        { (extractAndReset newHist).2 with
          prim := observeList true (extractAndReset newHist).2.prim
              (List.replicate 10 10) }).1.kept = (10 + 3) / 4 := by
  constructor
  · decide
  · decide

/-- C2 amended: with `sampled = true`, `n` observations against a freshly
reset histogram leave `kept = floor(n / 4)` (every observation whose running
count is a multiple of 4 is retained) while `count = n` regardless. -/
theorem C2_sampled_kept_floor (h0 : Hist) (vs : List Nat)
    (hlen : vs.length < u64size) :
    (extractAndReset
        { (extractAndReset h0).2 with
          prim := observeList true (extractAndReset h0).2.prim vs }).1.kept
      = vs.length / 4 ∧
    (extractAndReset
        { (extractAndReset h0).2 with
          prim := observeList true (extractAndReset h0).2.prim vs }).1.count
      = vs.length := by
  set d : Hdat := (extractAndReset h0).2.prim with hd
  have hc0 : d.count = 0 := rfl
  have hk0 : d.kept = 0 := rfl
  constructor
  · show (observeList true d vs).kept = vs.length / 4
    rw [observeList_sampled_kept vs d (by omega) (by rw [hk0, hc0])]
    rw [hc0, Nat.zero_add]
  · show (observeList true d vs).count = vs.length
    rw [observeList_count true vs d (by omega), hc0, Nat.zero_add]

/-- C2 amended witness: ten observations of value 10 give `kept = 2` and
`count = 10`. -/
theorem C2_sampled_kept_floor_witness :
    (List.replicate 10 10).length < u64size ∧
    ((extractAndReset
        { (extractAndReset newHist).2 with
          prim := observeList true (extractAndReset newHist).2.prim
              (List.replicate 10 10) }).1.kept
        = (List.replicate 10 10).length / 4 ∧
     (extractAndReset
        { (extractAndReset newHist).2 with
          prim := observeList true (extractAndReset newHist).2.prim
              (List.replicate 10 10) }).1.count
        = (List.replicate 10 10).length) :=
  ⟨by decide, C2_sampled_kept_floor newHist (List.replicate 10 10) (by decide)⟩

/-- C7: every sequence of `ObserveHist` and `extractAndReset` operations
preserves the aggregate-buffer invariant (`kept ≤ count`; `min ≤ max` when
`count > 0`; `min` at the sentinel and `max = 0` when `count = 0`) on both
buffers of the histogram, as long as the interval observation count cannot
overflow the uint64 counter. -/
theorem C7_invariant_preserved (s : Bool) (ops : List HistOp) (h : Hist)
    (hn : h.prim.count + ops.length < u64size)
    (hp : Inv h.prim) (hs : Inv h.sec) :
    Inv (runOps s h ops).prim ∧ Inv (runOps s h ops).sec :=
  runOps_inv s ops h hn hp hs

/-- C3: with fewer than `maxNumHists` registrations so far, `AddHistogram`
returns the next 0-based consecutive handle (the current value of the
registration counter) and bumps the counter by one; at or past the maximum it
panics with "Too many histograms" (an unrecoverable error — `ObserveHist`,
by contrast, has no failure path at all). -/
theorem C3_registration_handles (st : RegState) (name : String)
    (sampled : Bool) (hlt : st.curHistID < u32size) :
    (st.curHistID < maxNumHists →
      ∃ st2, AddHistogram st name sampled = Except.ok (st.curHistID, st2) ∧
        st2.curHistID = st.curHistID + 1 ∧
        st2.hnames st.curHistID = name ∧
        st2.hsampled st.curHistID = sampled ∧
        st2.hists st.curHistID = newHist ∧
        st2.bhists st.curHistID = List.replicate bhistlen 0) ∧
    (maxNumHists ≤ st.curHistID →
      AddHistogram st name sampled = Except.error "Too many histograms") := by
  have hu : u32size = 4294967296 := by norm_num [u32size]
  have hidx : ((st.curHistID + 1) % u32size + (u32size - 1)) % u32size
      = st.curHistID := by
    rw [hu] at hlt ⊢
    omega
  constructor
  · intro hcap
    simp only [AddHistogram]
    rw [hidx]
    rw [if_neg (show ¬ st.curHistID ≥ maxNumHists from by omega)]
    refine ⟨_, rfl, ?_, by simp, by simp, by simp, by simp⟩
    show (st.curHistID + 1) % u32size = st.curHistID + 1
    have hm : maxNumHists = 1024 := rfl
    rw [hu] at hlt ⊢
    omega
  · intro hcap
    simp only [AddHistogram]
    rw [hidx]
    rw [if_pos (show st.curHistID ≥ maxNumHists from hcap)]

/-- C3 witness: the very first registration returns handle 0 and advances
the counter to 1. -/
theorem C3_registration_handles_witness :
    initRegState.curHistID < u32size ∧
    ((initRegState.curHistID < maxNumHists →
      ∃ st2, AddHistogram initRegState "latency" false
          = Except.ok (initRegState.curHistID, st2) ∧
        st2.curHistID = initRegState.curHistID + 1 ∧
        st2.hnames initRegState.curHistID = "latency" ∧
        st2.hsampled initRegState.curHistID = false ∧
        st2.hists initRegState.curHistID = newHist ∧
        st2.bhists initRegState.curHistID = List.replicate bhistlen 0) ∧
    (maxNumHists ≤ initRegState.curHistID →
      AddHistogram initRegState "latency" false
        = Except.error "Too many histograms")) :=
  ⟨by decide, C3_registration_handles initRegState "latency" false (by decide)⟩

/-- C4: one `ObserveHist` call increments exactly one bucket counter of the
bucket histogram of the handle by exactly 1, at index `lzcnt value` (the number of
leading zero bits); value 0 maps to bucket 64 and `2 ^ 63` to bucket 0; and
`extractBHist` returns the counters themselves (a copy, modifying nothing). -/
theorem C4_bucket_histogram (st : RegState) (id v j : Nat)
    (hj : j < bhistlen)
    (hlen : (st.bhists id).length = bhistlen)
    (hof : (st.bhists id).getD (lzcnt v) 0 + 1 < u64size) :
    lzcnt v < bhistlen ∧
    lzcnt 0 = 64 ∧
    lzcnt (2 ^ 63) = 0 ∧
    (((ObserveHist st id v).bhists id).getD j 0 =
      if j = lzcnt v then (st.bhists id).getD j 0 + 1
      else (st.bhists id).getD j 0) ∧
    extractBHist (st.bhists id) = st.bhists id := by
  refine ⟨lzcnt_lt_bhistlen v, rfl, lzcnt_two_pow_63, ?_,
    extractBHist_eq_self _ hlen⟩
  have hobs : (ObserveHist st id v).bhists id = recordBucket (st.bhists id) v :=
    by simp [ObserveHist]
  rw [hobs]
  unfold recordBucket
  dsimp only
  rw [Nat.mod_eq_of_lt hof]
  by_cases hjb : j = lzcnt v
  · rw [hjb, if_pos rfl]
    have hjl : lzcnt v < (st.bhists id).length := by
      rw [hlen]
      exact lzcnt_lt_bhistlen v
    simp only [List.getD_eq_getElem?_getD,
      List.getElem?_set_self (by simpa using hjl), Option.getD_some]
  · rw [if_neg hjb]
    simp only [List.getD_eq_getElem?_getD,
      List.getElem?_set_ne (fun he => hjb he.symm)]

/-- C4 witness: observing value 0 against handle 0 of the initial registry
(whose tables hold fresh zeroed bucket arrays) increments bucket 64. -/
theorem C4_bucket_histogram_witness :
    ((64 : Nat) < bhistlen ∧
      (initRegState.bhists 0).length = bhistlen ∧
      (initRegState.bhists 0).getD (lzcnt 0) 0 + 1 < u64size) ∧
    (lzcnt 0 < bhistlen ∧
     lzcnt 0 = 64 ∧
     lzcnt (2 ^ 63) = 0 ∧
     (((ObserveHist initRegState 0 0).bhists 0).getD 64 0 =
       if (64 : Nat) = lzcnt 0 then (initRegState.bhists 0).getD 64 0 + 1
       else (initRegState.bhists 0).getD 64 0) ∧
     extractBHist (initRegState.bhists 0) = initRegState.bhists 0) :=
  ⟨⟨by decide, by decide, by decide⟩,
   C4_bucket_histogram initRegState 0 0 64 (by decide) (by decide) (by decide)⟩

/-- C5: the sample buffer has exactly `buflen + 1 = 32768` slots; a retained
observation writes slot `kept % 32768` (post-increment `kept`), which is
always in bounds; the buffer length never grows past 32768 under any number
of observations; and once an interval retains more than 32768 observations
every slot of the resulting buffer holds a value that was actually observed
in that interval. -/
theorem C5_sample_buffer_bound (h0 : Hist) (vs : List Nat) (j : Nat)
    (hlen : h0.sec.buf.length = buflen + 1)
    (hn : vs.length > buflen + 1)
    (hj : j < buflen + 1) :
    buflen + 1 = 32768 ∧
    newHdat.buf.length = buflen + 1 ∧
    (∀ d : Hdat, ∀ v : Nat,
        (observeHdat false v d).buf = d.buf.set ((d.kept + 1) % 32768) v ∧
        (d.kept + 1) % 32768 < buflen + 1) ∧
    (observeList false (extractAndReset h0).2.prim vs).buf.length
      = buflen + 1 ∧
    (observeList false (extractAndReset h0).2.prim vs).buf.getD j 0 ∈ vs := by
  have hb : buflen = 32767 := rfl
  refine ⟨rfl, by simp [newHdat], ?_, ?_, ?_⟩
  · intro d v
    refine ⟨observeHdat_unsampled_buf v d, ?_⟩
    have := Nat.mod_lt (d.kept + 1) (show 0 < 32768 by norm_num)
    omega
  · rw [observeList_buf_length]
    exact hlen
  · set d : Hdat := (extractAndReset h0).2.prim with hd
    have hk0 : d.kept = 0 := rfl
    have hdlen : d.buf.length = 32768 := by
      show h0.sec.buf.length = 32768
      omega
    have hcov : ∃ i, i < vs.length ∧ (d.kept + 1 + i) % 32768 = j := by
      refine ⟨(j + 32767) % 32768, ?_, ?_⟩
      · have := Nat.mod_lt (j + 32767) (show 0 < 32768 by norm_num)
        omega
      · rw [hk0]
        omega
    obtain ⟨i0, hi0, _, hbuf, _⟩ := observeList_buf_written vs d j hdlen hcov
    rw [hbuf, List.getD_eq_getElem?_getD, List.getElem?_eq_getElem hi0,
      Option.getD_some]
    exact List.getElem_mem hi0

/-- C5 witness: 32769 unsampled observations of value 7 against the fresh
initial histogram; slot 0 of the resulting buffer holds an observed value. -/
theorem C5_sample_buffer_bound_witness :
    (newHist.sec.buf.length = buflen + 1 ∧
      (List.replicate 32769 7).length > buflen + 1 ∧ (0 : Nat) < buflen + 1) ∧
    (buflen + 1 = 32768 ∧
     newHdat.buf.length = buflen + 1 ∧
     (∀ d : Hdat, ∀ v : Nat,
        (observeHdat false v d).buf = d.buf.set ((d.kept + 1) % 32768) v ∧
        (d.kept + 1) % 32768 < buflen + 1) ∧
     (observeList false (extractAndReset newHist).2.prim
        (List.replicate 32769 7)).buf.length = buflen + 1 ∧
     (observeList false (extractAndReset newHist).2.prim
        (List.replicate 32769 7)).buf.getD 0 0 ∈ List.replicate 32769 7) :=
  ⟨⟨by simp [newHist, newHdat],
    by rw [List.length_replicate]; norm_num [buflen],
    by norm_num [buflen]⟩,
   C5_sample_buffer_bound newHist (List.replicate 32769 7) 0
     (by simp [newHist, newHdat])
     (by rw [List.length_replicate]; norm_num [buflen])
     (by norm_num [buflen])⟩

/-- C10: `ObserveHist` stores a retained observation at slot
`(kept + 1) % 32768` (post-increment): the first retained observation of a
fresh interval lands in slot 1, the i-th in slot `i % 32768`, slot 0 is first
written by the 32768th retained observation, and after an interval retaining
fewer than 32768 observations slot 0 of the extracted snapshot still holds
the pre-interval (stale) contents. -/
theorem C10_post_increment_slot (h0 : Hist) (vs : List Nat)
    (hlen : h0.sec.buf.length = buflen + 1) :
    (∀ v : Nat, (observeHdat false v (extractAndReset h0).2.prim).buf =
        (extractAndReset h0).2.prim.buf.set 1 v) ∧
    (∀ i, i < vs.length →
      (observeList false (extractAndReset h0).2.prim (vs.take (i + 1))).buf =
        (observeList false (extractAndReset h0).2.prim (vs.take i)).buf.set
          ((i + 1) % 32768) (vs.getD i 0)) ∧
    (vs.length < buflen + 1 →
      (extractAndReset
          { (extractAndReset h0).2 with
            prim := observeList false (extractAndReset h0).2.prim vs
          }).1.buf.getD 0 0
        = h0.sec.buf.getD 0 0) ∧
    (vs.length = buflen + 1 →
      (observeList false (extractAndReset h0).2.prim vs).buf.getD 0 0
        = vs.getD buflen 0) := by
  have hb : buflen = 32767 := rfl
  set d : Hdat := (extractAndReset h0).2.prim with hd
  have hk0 : d.kept = 0 := rfl
  have hdlen : d.buf.length = 32768 := by
    show h0.sec.buf.length = 32768
    omega
  refine ⟨?_, ?_, ?_, ?_⟩
  · intro v
    rw [observeHdat_unsampled_buf, hk0]
  · intro i hi
    have hsome : vs[i]?.toList = [vs.getD i 0] := by
      rw [List.getElem?_eq_getElem hi]
      simp only [List.getD_eq_getElem?_getD, List.getElem?_eq_getElem hi,
        Option.getD_some, Option.toList_some]
    rw [List.take_succ, hsome, observeList_append]
    show (observeHdat false (vs.getD i 0)
        (observeList false d (vs.take i))).buf = _
    rw [observeHdat_unsampled_buf]
    have hkept := observeList_unsampled_kept_mod (vs.take i) d
    have hlen_take : (vs.take i).length = i := by
      rw [List.length_take]
      omega
    rw [hk0, hlen_take] at hkept
    congr 1
    omega
  · intro hsm
    show (observeList false d vs).buf.getD 0 0 = h0.sec.buf.getD 0 0
    have huntouched : ∀ i, i < vs.length → (d.kept + 1 + i) % 32768 ≠ 0 := by
      intro i hi
      rw [hk0]
      omega
    rw [observeList_buf_untouched vs d 0 huntouched, hd]
    rfl
  · intro heq
    have hcov : ∃ i, i < vs.length ∧ (d.kept + 1 + i) % 32768 = 0 := by
      refine ⟨buflen, by omega, by rw [hk0, hb]⟩
    obtain ⟨i0, hi0, hieq, hbuf, hlast⟩ :=
      observeList_buf_written vs d 0 hdlen hcov
    have hi0b : i0 = buflen := by
      rw [hk0] at hieq
      omega
    rw [hbuf, hi0b]

/-- C10 witness: three observations against the fresh initial histogram; the
interval keeps fewer than 32768 values, so slot 0 stays stale. -/
theorem C10_post_increment_slot_witness :
    newHist.sec.buf.length = buflen + 1 ∧
    ((∀ v : Nat,
        (observeHdat false v (extractAndReset newHist).2.prim).buf =
          (extractAndReset newHist).2.prim.buf.set 1 v) ∧
     (∀ i, i < ([5, 6, 7] : List Nat).length →
       (observeList false (extractAndReset newHist).2.prim
           (([5, 6, 7] : List Nat).take (i + 1))).buf =
         (observeList false (extractAndReset newHist).2.prim
             (([5, 6, 7] : List Nat).take i)).buf.set
           ((i + 1) % 32768) (([5, 6, 7] : List Nat).getD i 0)) ∧
     (([5, 6, 7] : List Nat).length < buflen + 1 →
       (extractAndReset
           { (extractAndReset newHist).2 with
             prim := observeList false (extractAndReset newHist).2.prim
                 [5, 6, 7] }).1.buf.getD 0 0
         = newHist.sec.buf.getD 0 0) ∧
     (([5, 6, 7] : List Nat).length = buflen + 1 →
       (observeList false (extractAndReset newHist).2.prim
           [5, 6, 7]).buf.getD 0 0
         = ([5, 6, 7] : List Nat).getD buflen 0)) :=
  ⟨by simp [newHist, newHdat],
   C10_post_increment_slot newHist [5, 6, 7] (by simp [newHist, newHdat])⟩

/-- C7 witness: a concrete observe/extract/observe sequence from the initial
histogram state. -/
theorem C7_invariant_preserved_witness :
    (newHist.prim.count +
        ([HistOp.observe 5, HistOp.extract, HistOp.observe 7]).length
      < u64size ∧ Inv newHist.prim ∧ Inv newHist.sec) ∧
    (Inv (runOps true newHist
        [HistOp.observe 5, HistOp.extract, HistOp.observe 7]).prim ∧
     Inv (runOps true newHist
        [HistOp.observe 5, HistOp.extract, HistOp.observe 7]).sec) :=
  ⟨⟨by decide, inv_newHdat, inv_newHdat⟩,
   C7_invariant_preserved true
     [HistOp.observe 5, HistOp.extract, HistOp.observe 7] newHist
     (by decide) inv_newHdat inv_newHdat⟩

/-- C9: `getAllHistograms` iterates every registered handle in registration
order, applies `extractAndReset` to each one (second conjunct), and returns a
map keyed by name in which the snapshot of the last-registered handle bearing
a given name wins (first conjunct: if `p` is the last index whose name is
`nm`, the map returns the snapshot `extractAndReset` produced for `p`). -/
theorem C9_export_last_registration_wins (st : RegState) (nm : String)
    (p : Nat) (hlt : st.curHistID < u32size)
    (hp : p < st.curHistID) (hname : st.hnames p = nm)
    (hlast : ∀ q, p < q → q < st.curHistID → st.hnames q ≠ nm) :
    (getAllHistograms st).1 nm = some ((extractAndReset (st.hists p)).1) ∧
    (∀ i, i < st.curHistID →
      (getAllHistograms st).2.hists i = (extractAndReset (st.hists i)).2) := by
  have hmod : st.curHistID % u32size = st.curHistID := Nat.mod_eq_of_lt hlt
  constructor
  · unfold getAllHistograms
    rw [hmod]
    have h := gahFold_map_last (List.range st.curHistID)
      (List.nodup_range st.curHistID) (fun _ => none, st) nm p
      (by simpa using hp)
      (by rw [getD_range st.curHistID p hp]; exact hname)
      (fun q hq hql => by
        rw [getD_range st.curHistID q (by simpa using hql)]
        exact hlast q hq (by simpa using hql))
    rw [h, getD_range st.curHistID p hp]
    rfl
  · intro i hi
    unfold getAllHistograms
    rw [hmod]
    exact gahFold_hists_mem (List.range st.curHistID)
      (List.nodup_range st.curHistID) (fun _ => none, st) i
      (List.mem_range.mpr hi)

/-- C9 witness: a registry with two registered handles sharing the empty
name; the export returns the snapshot of handle 1 and both handles were
extract-and-reset. -/
theorem C9_export_last_registration_wins_witness :
    ({ initRegState with curHistID := 2 } : RegState).curHistID < u32size ∧
    (1 : Nat) < ({ initRegState with curHistID := 2 } : RegState).curHistID ∧
    ({ initRegState with curHistID := 2 } : RegState).hnames 1 = "" ∧
    ((getAllHistograms { initRegState with curHistID := 2 }).1 ""
        = some ((extractAndReset
            (({ initRegState with curHistID := 2 } : RegState).hists 1)).1) ∧
     (∀ i, i < ({ initRegState with curHistID := 2 } : RegState).curHistID →
       (getAllHistograms { initRegState with curHistID := 2 }).2.hists i
         = (extractAndReset
             (({ initRegState with curHistID := 2 } : RegState).hists i)).2)) :=
  ⟨by decide, by decide, by decide,
   C9_export_last_registration_wins { initRegState with curHistID := 2 } "" 1
     (by decide) (by decide) (by decide)
     (fun q h1 h2 => absurd (show q < 2 from h2) (by omega))⟩

/-- C8: bucket counters never decrease and are never reset: a successful
`AddHistogram` leaves the counters of every registered handle untouched; an
`ObserveHist` against any registered handle only increases (by the one
recorded bucket) the counters; `getAllHistograms` (which resets aggregate
buffers) does not touch bucket counters; and `getAllBucketHistograms`
returns, per name, a fresh `bhistlen`-element copy equal to the registered
counters themselves, modifying nothing. -/
theorem C8_bucket_counters_monotone (st : RegState) (id j : Nat)
    (hid : id < st.curHistID) (hlt : st.curHistID < u32size)
    (hblen : ∀ i, i < st.curHistID → (st.bhists i).length = bhistlen) :
    (∀ name sampled res, AddHistogram st name sampled = Except.ok res →
        res.2.bhists id = st.bhists id) ∧
    (∀ i2 v, i2 < st.curHistID →
        (st.bhists i2).getD (lzcnt v) 0 + 1 < u64size →
        (st.bhists id).getD j 0 ≤ ((ObserveHist st i2 v).bhists id).getD j 0) ∧
    ((getAllHistograms st).2.bhists id = st.bhists id) ∧
    (∀ nm dat, getAllBucketHistograms st nm = some dat →
        dat.length = bhistlen ∧
        ∃ i, i < st.curHistID ∧ st.hnames i = nm ∧ dat = st.bhists i) ∧
    extractBHist (st.bhists id) = st.bhists id := by
  have hu : u32size = 4294967296 := by norm_num [u32size]
  have hmod : st.curHistID % u32size = st.curHistID := Nat.mod_eq_of_lt hlt
  refine ⟨?_, ?_, ?_, ?_, extractBHist_eq_self _ (hblen id hid)⟩
  · intro name sampled res hok
    have hidx : ((st.curHistID + 1) % u32size + (u32size - 1)) % u32size
        = st.curHistID := by
      rw [hu] at hlt ⊢
      omega
    unfold AddHistogram at hok
    dsimp only at hok
    rw [hidx] at hok
    by_cases hcap : st.curHistID ≥ maxNumHists
    · rw [if_pos hcap] at hok
      cases hok
    · rw [if_neg hcap] at hok
      have h3 := congrArg
        (fun e => match e with
          | Except.ok (r : Nat × RegState) => r.2.bhists id
          | Except.error _ => st.bhists id) hok
      dsimp only at h3
      rw [← h3, if_neg (show ¬ id = st.curHistID from by omega)]
  · intro i2 v hi2 hof
    show (st.bhists id).getD j 0 ≤
      (if id = i2 then recordBucket (st.bhists i2) v else st.bhists id).getD j 0
    by_cases hii : id = i2
    · subst hii
      rw [if_pos rfl]
      unfold recordBucket
      dsimp only
      rw [Nat.mod_eq_of_lt hof]
      by_cases hjb : j = lzcnt v
      · rw [hjb]
        have hjl : lzcnt v < (st.bhists id).length := by
          rw [hblen id hid]
          exact lzcnt_lt_bhistlen v
        simp only [List.getD_eq_getElem?_getD,
          List.getElem?_set_self (by simpa using hjl), Option.getD_some]
        omega
      · simp only [List.getD_eq_getElem?_getD,
          List.getElem?_set_ne (fun he => hjb he.symm)]
        exact Nat.le_refl _
    · rw [if_neg hii]
  · unfold getAllHistograms
    rw [hmod]
    exact congrFun (gahFold_fields (List.range st.curHistID)
      (fun _ => none, st)).2.2.2 id
  · intro nm dat hr
    unfold getAllBucketHistograms at hr
    rw [hmod] at hr
    rcases gabhFold_lookup st (List.range st.curHistID) (fun _ => none)
        nm dat hr with ⟨i, hi, hnm, hdat⟩ | hbase
    · have hilt : i < st.curHistID := List.mem_range.mp hi
      refine ⟨?_, i, hilt, hnm, ?_⟩
      · rw [hdat]
        exact extractBHist_length (st.bhists i)
      · rw [hdat]
        exact extractBHist_eq_self _ (hblen i hilt)
    · cases hbase

/-- C8 witness: a registry with one registered handle; all four operations
leave its zeroed bucket array intact (resp. increase it). -/
theorem C8_bucket_counters_monotone_witness :
    ((0 : Nat) < ({ initRegState with curHistID := 1 } : RegState).curHistID ∧
     ({ initRegState with curHistID := 1 } : RegState).curHistID < u32size ∧
     (∀ i, i < ({ initRegState with curHistID := 1 } : RegState).curHistID →
       (({ initRegState with curHistID := 1 } : RegState).bhists i).length
         = bhistlen)) ∧
    ((∀ name sampled res,
        AddHistogram { initRegState with curHistID := 1 } name sampled
          = Except.ok res →
        res.2.bhists 0
          = ({ initRegState with curHistID := 1 } : RegState).bhists 0) ∧
     (∀ i2 v, i2 < ({ initRegState with curHistID := 1 } : RegState).curHistID →
        (({ initRegState with curHistID := 1 } : RegState).bhists i2).getD
            (lzcnt v) 0 + 1 < u64size →
        (({ initRegState with curHistID := 1 } : RegState).bhists 0).getD 0 0 ≤
          ((ObserveHist { initRegState with curHistID := 1 } i2 v).bhists
              0).getD 0 0) ∧
     ((getAllHistograms { initRegState with curHistID := 1 }).2.bhists 0
        = ({ initRegState with curHistID := 1 } : RegState).bhists 0) ∧
     (∀ nm dat,
        getAllBucketHistograms { initRegState with curHistID := 1 } nm
          = some dat →
        dat.length = bhistlen ∧
        ∃ i, i < ({ initRegState with curHistID := 1 } : RegState).curHistID ∧
          ({ initRegState with curHistID := 1 } : RegState).hnames i = nm ∧
          dat = ({ initRegState with curHistID := 1 } : RegState).bhists i) ∧
     extractBHist (({ initRegState with curHistID := 1 } : RegState).bhists 0)
       = ({ initRegState with curHistID := 1 } : RegState).bhists 0) :=
  ⟨⟨by decide, by decide,
    fun i hi => by
      have h1 : i < 1 := hi
      have : i = 0 := by omega
      subst this
      decide⟩,
   C8_bucket_counters_monotone { initRegState with curHistID := 1 } 0 0
     (by decide) (by decide)
     (fun i hi => by
       have h1 : i < 1 := hi
       have : i = 0 := by omega
       subst this
       decide)⟩

end Metrics
